import Mathlib

/-!
Shallow embedding of the go-shellify registry acquisition and validation
pipeline (packages internal/registry: registry.go, git_client.go,
structure_validator.go, and the URL validator file).

Modelling conventions:
* File contents and process results are represented by explicit state and
  oracle values (`RepoTree`, `GitEnv`, `GitIntrospection`, an HTTP oracle
  `String → HTTPResult`): each Go I/O step reads the corresponding field.
* Go errors built with fmt.Errorf are represented by inductive error types
  whose constructors are in bijection with the distinct fmt.Errorf call
  sites of the embedded functions; payloads carry the values interpolated
  into the message.
* time.Time is an abstract instant `GoTime := Int` (nanoseconds since the
  Go zero time, year 1); the zero value is 0 and the unix epoch is the
  positive constant `unixEpochSec * 10^9`.
* Go maps that come from JSON objects (the module mapping) are association
  lists `List (String × Module)`; iteration order of the model is the list
  order, a deterministic refinement of Go map iteration.
-/

namespace Shellify

/-- Abstract time instant standing for Go time.Time: nanoseconds since the
Go zero time (January 1, year 1). The zero value of time.Time is 0. -/
abbrev GoTime := Int

/-- Seconds from the Go zero time to the unix epoch; time.Unix(n, 0) is the
instant `(unixEpochSec + n) * 10^9` nanoseconds. -/
def unixEpochSec : Int := 62135596800

/-- Go strings.Trim(s, "/"): drops leading and trailing slash characters. -/
def trimSlashes (s : String) : String :=
  String.mk (((s.toList.dropWhile (· == '/')).reverse.dropWhile (· == '/')).reverse)

/-- Helper for strings.Contains: does `hay` start with `needle`? -/
def charSegAt : List Char → List Char → Bool
  | _, [] => true
  | [], _ :: _ => false
  | a :: as, b :: bs => a == b && charSegAt as bs

/-- Helper for strings.Contains: does `needle` occur inside `hay`? -/
def charContains : List Char → List Char → Bool
  | [], needle => needle.isEmpty
  | a :: as, needle => charSegAt (a :: as) needle || charContains as needle

/-- Go strings.Contains(s, sub). -/
def containsSubstr (s sub : String) : Bool :=
  charContains s.toList sub.toList

/-- Structural test that `t` is a leading segment of `s` (String.startsWith). -/
def strStartsWith (s t : String) : Bool :=
  charSegAt s.toList t.toList

/-- Structural test that `t` is a trailing segment of `s` (String.endsWith). -/
def strEndsWith (s t : String) : Bool :=
  charSegAt s.toList.reverse t.toList.reverse

/-- Structural String.drop. -/
def strDrop (s : String) (n : Nat) : String :=
  String.mk (s.toList.drop n)

/-- Structural String.dropRight. -/
def strDropRight (s : String) (n : Nat) : String :=
  String.mk (s.toList.take (s.toList.length - n))

/-- Character count of a string. -/
def strLength (s : String) : Nat :=
  s.toList.length

/-- Whitespace trim on both ends (Go strings.TrimSpace; the unicode space
classes beyond Char.isWhitespace do not occur in the embedded inputs). -/
def strTrim (s : String) : String :=
  String.mk (((s.toList.dropWhile Char.isWhitespace).reverse.dropWhile Char.isWhitespace).reverse)

/-- Split of a character list at every occurrence of `c`; never returns an
empty list of parts. -/
def splitChars (c : Char) : List Char → List (List Char)
  | [] => [[]]
  | x :: xs =>
    let r := splitChars c xs
    if x == c then [] :: r
    else
      match r with
      | h :: t2 => (x :: h) :: t2
      | [] => [[x]]

/-- Split of a string on a one-character separator (Go strings.Split and
String.splitOn for the separators used in the source). -/
def splitOnChar (s : String) (c : Char) : List String :=
  (splitChars c s.toList).map String.mk

/-- UTF-8 byte size of one character. -/
def charUtf8Size (c : Char) : Nat :=
  if c.toNat < 128 then 1 else if c.toNat < 2048 then 2 else if c.toNat < 65536 then 3 else 4

/-- UTF-8 byte length of a string, the Go len of a string. -/
def utf8Len (s : String) : Nat :=
  (s.toList.map charUtf8Size).sum

/-- Go strings.TrimSuffix: drops `suffix` from the end of `s` when present. -/
def trimSuffix (s suffix : String) : String :=
  if strEndsWith s suffix then strDropRight s (strLength suffix) else s

/-- ASCII lowering of a string; stands for Go strings.ToLower, whose inputs
in the embedded code are compared against ASCII allow-lists. -/
def toLowerAscii (s : String) : String :=
  String.mk (s.toList.map Char.toLower)

/-- Splits a string at the first occurrence of `c`: returns the part before
it and, when `c` occurs, the part after it. -/
def breakAtFirst : List Char → Char → List Char × Option (List Char)
  | [], _ => ([], none)
  | x :: xs, c =>
    if x == c then ([], some xs)
    else
      let r := breakAtFirst xs c
      (x :: r.1, r.2)

/-- String version of `breakAtFirst`. -/
def splitAtFirstChar (s : String) (c : Char) : String × Option String :=
  let r := breakAtFirst s.toList c
  (String.mk r.1, r.2.map String.mk)

/-- Non-empty all-digits check, the `[0-9]+` groups of the semver pattern. -/
def isDigitsStr (s : String) : Bool :=
  strLength s > 0 && s.toList.all Char.isDigit

/-- Dot-separated identifier list `[0-9A-Za-z-]+(\.[0-9A-Za-z-]+)*` used by
the prerelease and build parts of the semver pattern. -/
def semverIdents (s : String) : Bool :=
  (splitOnChar s '.').all fun p => strLength p > 0 && p.toList.all fun c => c.isAlphanum || c == '-'

/-- Whether `version` matches the semver regular expression of
validateSemanticVersion:
MAJOR.MINOR.PATCH with optional -prerelease and +build. Splitting at the
first '+' and then the first '-' is equivalent to the regex because the
MAJOR.MINOR.PATCH core is digits-and-dots only and neither identifier part
may contain '+'. -/
def matchSemverPattern (version : String) : Bool :=
  let p := splitAtFirstChar version '+'
  let d := splitAtFirstChar p.1 '-'
  (match splitOnChar d.1 '.' with
   | [maj, minr, pat] => isDigitsStr maj && isDigitsStr minr && isDigitsStr pat
   | _ => false)
  && (match d.2 with | none => true | some pre => semverIdents pre)
  && (match p.2 with | none => true | some build => semverIdents build)

/-- validateSemanticVersion returns nil exactly when the pattern matches. -/
def validateSemanticVersion (version : String) : Bool :=
  matchSemverPattern version

/-- Whether `s` matches `^[a-z0-9-]+$`, the registry and module name
pattern. -/
def matchLowerNamePattern (s : String) : Bool :=
  strLength s > 0 && s.toList.all fun c => ('a' ≤ c && c ≤ 'z') || c.isDigit || c == '-'

/-- Module entry of a RegistryIndex (registry.go). -/
structure Module where
  name : String
  description : String
  version : String
  path : String
  shell : String
deriving DecidableEq, Repr

/-- Parsed index.json (registry.go RegistryIndex); the module mapping is an
association list standing for the Go map. -/
structure RegistryIndex where
  name : String
  description : String
  version : String
  modules : List (String × Module)
deriving DecidableEq, Repr

/-- Parsed module.json as far as validateModuleJSON inspects it: presence
of the required keys, and for "type" also whether the value is a string and
which one. `typeField = none` means the key is absent, `some none` a
non-string value, `some (some t)` the string `t`. -/
structure ModuleJson where
  hasName : Bool
  hasDescription : Bool
  typeField : Option (Option String)
deriving DecidableEq, Repr

/-- Local state of one materialized registry directory, as far as the
validators read it. `indexJson = none` means index.json is absent,
`some none` an unparsable file, `some (some idx)` a parsed index. `dirs`
lists the relative paths that exist as directories. `moduleFiles` maps a
module path to its module.json parse outcome (absent from the list means
the file does not exist). `modulesEntry` is the stat outcome of the
top-level "modules" entry: none absent, some true a directory, some false
a non-directory. -/
structure RepoTree where
  indexJson : Option (Option RegistryIndex)
  dirs : List String
  moduleFiles : List (String × Option ModuleJson)
  modulesEntry : Option Bool
deriving DecidableEq, Repr

/-- Error cases of validateIndexJSON, one constructor per fmt.Errorf call
site (the unreachable os.ReadFile failure is not modelled: an existing file
reads successfully in this model). -/
inductive IndexErr where
  | notFound
  | invalidJSON
  | emptyName
  | emptyDescription
  | emptyVersion
  | invalidVersionFmt (v : String)
  | nameBadChars (n : String)
  | nameTooShort (n : String)
  | nameTooLong (n : String)
deriving DecidableEq, Repr

/-- Error cases of validateSingleModule and the helpers it calls, with the
wrapping path or field payloads of the corresponding messages. -/
inductive ModErr where
  | nameRequired
  | nameMismatch (name key : String)
  | descriptionRequired
  | pathRequired
  | nameBadChars (n : String)
  | nameTooShort (n : String)
  | nameTooLong (n : String)
  | badVersion (v : String)
  | badShell (s : String)
  | pathMissing (p : String)
  | moduleJsonMissing (p : String)
  | moduleJsonInvalid (p : String)
  | missingField (p f : String)
  | typeNotString (p : String)
  | badType (p t : String)
deriving DecidableEq, Repr

/-- Error cases of validateModules. -/
inductive ModulesErr where
  | empty
  | moduleFailed (key : String) (e : ModErr)
deriving DecidableEq, Repr

/-- Error cases of validateDirectoryStructure (the stat-failure branch that
is neither not-exist nor success is not representable in the model). -/
inductive DirErr where
  | modulesNotDir
deriving DecidableEq, Repr

/-- Error of ValidateStructure, wrapping each phase error the way the
three fmt.Errorf wrappers do. -/
inductive StructErr where
  | indexFailed (e : IndexErr)
  | modulesFailed (e : ModulesErr)
  | dirFailed (e : DirErr)
deriving DecidableEq, Repr

/-- validateRegistryName: pattern, then minimum, then maximum length (byte
lengths, as Go len). -/
def validateRegistryName (name : String) : Except IndexErr Unit :=
  if !matchLowerNamePattern name then .error (.nameBadChars name)
  else if utf8Len name < 3 then .error (.nameTooShort name)
  else if utf8Len name > 50 then .error (.nameTooLong name)
  else .ok ()

/-- validateIndexJSON: existence, parse, required non-blank fields, semver
version, then registry name shape. -/
def validateIndexJSON (t : RepoTree) : Except IndexErr RegistryIndex :=
  match t.indexJson with
  | none => .error .notFound
  | some none => .error .invalidJSON
  | some (some index) =>
    if strTrim index.name == "" then .error .emptyName
    else if strTrim index.description == "" then .error .emptyDescription
    else if strTrim index.version == "" then .error .emptyVersion
    else if !validateSemanticVersion index.version then .error (.invalidVersionFmt index.version)
    else
      match validateRegistryName index.name with
      | .error e => .error e
      | .ok () => .ok index

/-- validateModuleName: pattern, then 2 to 30 byte length. -/
def validateModuleName (name : String) : Except ModErr Unit :=
  if !matchLowerNamePattern name then .error (.nameBadChars name)
  else if utf8Len name < 2 then .error (.nameTooShort name)
  else if utf8Len name > 30 then .error (.nameTooLong name)
  else .ok ()

/-- Shell allow-list of validateShell. -/
def supportedShells : List String := ["bash", "zsh", "fish", "powershell", "sh"]

/-- validateShell: case-insensitive membership in the allow-list. -/
def validateShell (shell : String) : Bool :=
  supportedShells.contains (toLowerAscii shell)

/-- Module type allow-list of validateModuleType. -/
def validModuleTypes : List String := ["aliases", "functions", "exports", "scripts", "config"]

/-- validateModuleType: case-insensitive membership in the allow-list. -/
def validateModuleType (moduleType : String) : Bool :=
  validModuleTypes.contains (toLowerAscii moduleType)

/-- validateModuleJSON: required keys name, description, type in that
order, then the type value must be a string in the allow-list. `p` is the
module path used in the wrapping message. -/
def validateModuleJSON (p : String) (mj : ModuleJson) : Except ModErr Unit :=
  if !mj.hasName then .error (.missingField p "name")
  else if !mj.hasDescription then .error (.missingField p "description")
  else
    match mj.typeField with
    | none => .error (.missingField p "type")
    | some none => .error (.typeNotString p)
    | some (some t) => if validateModuleType t then .ok () else .error (.badType p t)

/-- Association list lookup used for the model file system. -/
def alistFind {α : Type} (l : List (String × α)) (key : String) : Option α :=
  (l.find? fun p => p.1 == key).map (·.2)

/-- validateModulePath: the module directory must exist, contain a
module.json, and that file must pass validateModuleJSON. -/
def validateModulePath (t : RepoTree) (modulePath : String) : Except ModErr Unit :=
  if !(t.dirs.contains modulePath) then .error (.pathMissing modulePath)
  else
    match alistFind t.moduleFiles modulePath with
    | none => .error (.moduleJsonMissing modulePath)
    | some none => .error (.moduleJsonInvalid modulePath)
    | some (some mj) => validateModuleJSON modulePath mj

/-- validateSingleModule, with the checks in source order. -/
def validateSingleModule (t : RepoTree) (moduleKey : String) (m : Module) : Except ModErr Unit :=
  if strTrim m.name == "" then .error .nameRequired
  else if m.name != moduleKey then .error (.nameMismatch m.name moduleKey)
  else if strTrim m.description == "" then .error .descriptionRequired
  else if strTrim m.path == "" then .error .pathRequired
  else
    match validateModuleName m.name with
    | .error e => .error e
    | .ok () =>
      if m.version != "" && !validateSemanticVersion m.version then .error (.badVersion m.version)
      else if m.shell != "" && !validateShell m.shell then .error (.badShell m.shell)
      else validateModulePath t m.path

/-- Iteration of validateModules over the module mapping, stopping at the
first failing module and wrapping its error with the module key. -/
def validateModulesList (t : RepoTree) : List (String × Module) → Except ModulesErr Unit
  | [] => .ok ()
  | (key, m) :: rest =>
    match validateSingleModule t key m with
    | .error e => .error (.moduleFailed key e)
    | .ok () => validateModulesList t rest

/-- validateModules: the mapping must be non-empty, then every module must
validate. -/
def validateModules (t : RepoTree) (modules : List (String × Module)) : Except ModulesErr Unit :=
  if modules.length == 0 then .error .empty
  else validateModulesList t modules

/-- validateDirectoryStructure: an absent top-level "modules" entry is
tolerated; an existing non-directory entry is an error. -/
def validateDirectoryStructure (t : RepoTree) : Except DirErr Unit :=
  match t.modulesEntry with
  | none => .ok ()
  | some true => .ok ()
  | some false => .error .modulesNotDir

/-- ValidateStructure: the three phases in order, fail-fast, each error
wrapped with its phase. -/
def ValidateStructure (t : RepoTree) : Except StructErr Unit :=
  match validateIndexJSON t with
  | .error e => .error (.indexFailed e)
  | .ok index =>
    match validateModules t index.modules with
    | .error e => .error (.modulesFailed e)
    | .ok () =>
      match validateDirectoryStructure t with
      | .error e => .error (.dirFailed e)
      | .ok () => .ok ()

/-! Git client (git_client.go). External effects — running git, removing a
directory tree, logging — are modelled by an oracle `GitEnv`, an event
trace `List Ev`, and an explicit cache state. -/

/-- State of one cache subdirectory `<cache>/<name>`: whether `.git` exists
as a directory inside it, and its file tree. A name absent from the cache
association list has no directory at all. -/
structure DirState where
  hasGit : Bool
  tree : RepoTree
deriving DecidableEq, Repr

/-- The cache root content: one entry per existing subdirectory. -/
abbrev CacheState := List (String × DirState)

/-- Directory lookup (os.Stat of the subdirectory). -/
def lookupDir (cache : CacheState) (name : String) : Option DirState :=
  alistFind cache name

/-- Replaces the entry for `name` when present, otherwise appends it. -/
def setDir (cache : CacheState) (name : String) (d : DirState) : CacheState :=
  if (cache.find? fun p => p.1 == name).isSome then
    cache.map fun p => if p.1 == name then (name, d) else p
  else cache ++ [(name, d)]

/-- Removes the entry for `name` (os.RemoveAll). -/
def removeDir (cache : CacheState) (name : String) : CacheState :=
  cache.filter fun p => p.1 != name

/-- Oracle for the external effects of one operation: the tree a fresh
`git clone` would produce (none meaning the command exits non-zero), the
tree a `git pull` would leave behind (none meaning failure), and whether
os.RemoveAll succeeds. -/
structure GitEnv where
  cloneOutcome : Option RepoTree
  pullOutcome : Option RepoTree
  removeAllOutcome : Bool
deriving DecidableEq, Repr

/-- Observable events: the external git commands that are executed and the
log lines that are emitted, one constructor per call site. Cache
subdirectories are keyed by registry name, so events carry the name. -/
inductive Ev where
  | gitCloneCmd (url name : String)
  | gitPullCmd (name : String)
  | logDebugRepoExists (name : String)
  | logInfoCloning (url name : String)
  | logDebugCloned (name : String)
  | logDebugUpdating (name : String)
  | logDebugUpdated (name : String)
  | logInfoRemoving (name : String)
  | logWarnRemoveCacheFailed (name : String)
deriving DecidableEq, Repr

/-- Errors of the git client, one constructor per fmt.Errorf call site. -/
inductive GitErr where
  | cloneFailed
  | pullFailed
  | repoNotFound (name : String)
  | removeFailed
  | repoNotCloned (name : String)
deriving DecidableEq, Repr

/-- updateRepository: shallow pull in the existing directory; on success
the tree is replaced by the pulled one (the `.git` marker is unchanged). -/
def updateRepository (env : GitEnv) (cache : CacheState) (name : String) :
    CacheState × Except GitErr Unit × List Ev :=
  match env.pullOutcome with
  | some t =>
    let hasGit := match lookupDir cache name with
      | some d => d.hasGit
      | none => false
    (setDir cache name ⟨hasGit, t⟩, .ok (), [.logDebugUpdating name, .gitPullCmd name, .logDebugUpdated name])
  | none => (cache, .error .pullFailed, [.logDebugUpdating name, .gitPullCmd name])

/-- CloneRepository: when the target directory already exists (plain
os.Stat, not the `.git` predicate) it delegates to updateRepository;
otherwise it performs a fresh shallow clone. -/
def CloneRepository (env : GitEnv) (cache : CacheState) (url name : String) :
    CacheState × Except GitErr Unit × List Ev :=
  match lookupDir cache name with
  | some _ =>
    let r := updateRepository env cache name
    (r.1, r.2.1, .logDebugRepoExists name :: r.2.2)
  | none =>
    match env.cloneOutcome with
    | some t =>
      (cache ++ [(name, ⟨true, t⟩)], .ok (),
        [.logInfoCloning url name, .gitCloneCmd url name, .logDebugCloned name])
    | none =>
      (cache, .error .cloneFailed, [.logInfoCloning url name, .gitCloneCmd url name])

/-- GetRepositoryPath: filepath.Join of the cache root and the name. -/
def GetRepositoryPath (cacheDir name : String) : String :=
  cacheDir ++ "/" ++ name

/-- IsRepositoryCloned: true iff `<cache>/<name>/.git` exists and is a
directory. -/
def IsRepositoryCloned (cache : CacheState) (name : String) : Bool :=
  match lookupDir cache name with
  | some d => d.hasGit
  | none => false

/-- RemoveRepository: fails when the `.git` predicate does not hold,
otherwise recursively deletes the directory (os.RemoveAll may fail per the
oracle). -/
def RemoveRepository (env : GitEnv) (cache : CacheState) (name : String) :
    CacheState × Except GitErr Unit × List Ev :=
  if !IsRepositoryCloned cache name then
    (cache, .error (.repoNotFound name), [])
  else if env.removeAllOutcome then
    (removeDir cache name, .ok (), [.logInfoRemoving name])
  else
    (cache, .error .removeFailed, [.logInfoRemoving name])

/-- Diagnostic record returned by GetRepositoryInfo. -/
structure RepositoryInfo where
  name : String
  path : String
  remoteURL : String
  lastCommitHash : String
  lastCommitMessage : String
  lastCommitTime : GoTime
deriving DecidableEq, Repr

/-- Oracle for the two introspection commands of GetRepositoryInfo: the
captured stdout of `git remote get-url origin` and of
`git log -1 --format=%H|%s|%ct` (none meaning non-zero exit). -/
structure GitIntrospection where
  remoteOut : Option String
  logOut : Option String
deriving DecidableEq, Repr

/-- Two-complement wrap to int64, for Go integer arithmetic. -/
def wrap64 (n : Int) : Int :=
  ((n + 2 ^ 63) % 2 ^ 64) - 2 ^ 63

/-- Digit loop of parseIntFromString over int64 arithmetic. -/
def parseIntChars : List Char → Int → Except Unit Int
  | [], acc => .ok acc
  | c :: cs, acc =>
    if c < '0' || c > '9' then .error ()
    else parseIntChars cs (wrap64 (acc * 10 + ((c.toNat : Int) - ('0'.toNat : Int))))

/-- parseIntFromString: accepts digit-only strings; note the empty string
parses to 0 without error, as in the source. -/
def parseIntFromString (s : String) : Except Unit Int :=
  parseIntChars s.toList 0

/-- parseUnixTimestamp: time.Unix(n, 0) for the parsed integer. -/
def parseUnixTimestamp (timestampStr : String) : Except Unit GoTime :=
  match parseIntFromString timestampStr with
  | .error e => .error e
  | .ok n => .ok ((unixEpochSec + n) * 1000000000)

/-- Remote-URL step of GetRepositoryInfo: on success the trimmed command
output is stored, on failure the field is left as it was. -/
def infoAfterRemote (info : RepositoryInfo) (remoteOut : Option String) : RepositoryInfo :=
  match remoteOut with
  | some out => { info with remoteURL := strTrim out }
  | none => info

/-- Commit-log step of GetRepositoryInfo: the trimmed output is split on
the pipe character; with at least three parts the hash and message are
stored and the third part is parsed as a unix timestamp (stored only when
it parses); otherwise the fields are left as they were. -/
def infoAfterLog (info : RepositoryInfo) (logOut : Option String) : RepositoryInfo :=
  match logOut with
  | some out =>
    let parts := splitOnChar (strTrim out) '|'
    if parts.length ≥ 3 then
      let i3 := { info with
        lastCommitHash := parts.getD 0 "", lastCommitMessage := parts.getD 1 "" }
      match parseUnixTimestamp (parts.getD 2 "") with
      | .ok ts => { i3 with lastCommitTime := ts }
      | .error _ => i3
    else info
  | none => info

/-- GetRepositoryInfo: fails when not cloned; afterwards each introspection
sub-step failure leaves its fields at their zero values. -/
def GetRepositoryInfo (cacheDir : String) (cache : CacheState)
    (intro : GitIntrospection) (name : String) : Except GitErr RepositoryInfo :=
  if !IsRepositoryCloned cache name then .error (.repoNotCloned name)
  else
    let info0 : RepositoryInfo :=
      { name := name, path := GetRepositoryPath cacheDir name,
        remoteURL := "", lastCommitHash := "", lastCommitMessage := "", lastCommitTime := 0 }
    .ok (infoAfterLog (infoAfterRemote info0 intro.remoteOut) intro.logOut)

/-! Registry client (registry.go, the GitClient-based version). The client
state is the in-memory registry list, the parsed content of the persisted
registries.json, and the cache. saveRegistries is modelled as copying the
in-memory list to disk (a write that, once reached, succeeds). -/

/-- Persisted registry record. -/
structure Registry where
  url : String
  name : String
  description : String
  addedAt : GoTime
  lastSync : GoTime
deriving DecidableEq, Repr

/-- Client plus durable state. -/
structure World where
  mem : List Registry
  disk : List Registry
  cache : CacheState
deriving DecidableEq, Repr

/-- Errors of verifyLocalRegistry, one constructor per fmt.Errorf call
site (the os.ReadFile failure of an existing file is not representable). -/
inductive VerifyErr where
  | indexNotFound
  | invalidIndexJSON
  | missingNameField
deriving DecidableEq, Repr

/-- Errors of the registry client, one constructor per fmt.Errorf call
site (wrapped causes carried as payloads). -/
inductive RegErr where
  | alreadyExists (url : String)
  | nameAlreadyExists (name : String)
  | cloneFailed (e : GitErr)
  | validationFailed (e : VerifyErr)
  | notFound (identifier : String)
  | syncCloneFailed (e : GitErr)
  | syncUpdateFailed (e : GitErr)
  | syncValidationFailed (e : VerifyErr)
deriving DecidableEq, Repr

/-- Duplicate scan at the top of AddRegistry: the first record matching the
url (checked first) or the name decides the error. -/
def findDup : List Registry → String → String → Option RegErr
  | [], _, _ => none
  | reg :: rest, url, name =>
    if reg.url == url then some (.alreadyExists url)
    else if reg.name == name then some (.nameAlreadyExists name)
    else findDup rest url name

/-- verifyLocalRegistry: index.json must exist (an absent directory has no
index.json), parse as JSON, and carry a non-empty name field. -/
def verifyLocalRegistry (cache : CacheState) (name : String) : Except VerifyErr Unit :=
  match lookupDir cache name with
  | none => .error .indexNotFound
  | some d =>
    match d.tree.indexJson with
    | none => .error .indexNotFound
    | some none => .error .invalidIndexJSON
    | some (some index) =>
      if index.name == "" then .error .missingNameField else .ok ()

/-- AddRegistry: duplicate check, clone, basic verification, then persist;
on verification failure the clone is removed with the result discarded. -/
def AddRegistry (env : GitEnv) (w : World) (url name : String) (now : GoTime) :
    World × Except RegErr Unit × List Ev :=
  match findDup w.mem url name with
  | some e => (w, .error e, [])
  | none =>
    let c := CloneRepository env w.cache url name
    match c.2.1 with
    | .error ge => ({ w with cache := c.1 }, .error (.cloneFailed ge), c.2.2)
    | .ok () =>
      match verifyLocalRegistry c.1 name with
      | .error ve =>
        let r := RemoveRepository env c.1 name
        ({ w with cache := r.1 }, .error (.validationFailed ve), c.2.2 ++ r.2.2)
      | .ok () =>
        let reg : Registry :=
          { url := url, name := name, description := "", addedAt := now, lastSync := now }
        let mem1 := w.mem ++ [reg]
        ({ mem := mem1, disk := mem1, cache := c.1 }, .ok (), c.2.2)

/-- Search loop of RemoveRegistry: on the first record matching the
identifier by name or url, best-effort cache removal (a failure is printed
as a warning and not propagated) and removal of the record. -/
def removeRegistryAux (env : GitEnv) (cache : CacheState) :
    List Registry → String → Option (List Registry × CacheState × List Ev)
  | [], _ => none
  | reg :: rest, identifier =>
    if reg.name == identifier || reg.url == identifier then
      let r := RemoveRepository env cache reg.name
      let evs := r.2.2 ++ (match r.2.1 with
        | .error _ => [Ev.logWarnRemoveCacheFailed reg.name]
        | .ok () => [])
      some (rest, r.1, evs)
    else
      match removeRegistryAux env cache rest identifier with
      | some p => some (reg :: p.1, p.2.1, p.2.2)
      | none => none

/-- RemoveRegistry: removes the first matching record and persists, or
reports not-found. -/
def RemoveRegistry (env : GitEnv) (w : World) (identifier : String) :
    World × Except RegErr Unit × List Ev :=
  match removeRegistryAux env w.cache w.mem identifier with
  | some p => ({ mem := p.1, disk := p.1, cache := p.2.1 }, .ok (), p.2.2)
  | none => (w, .error (.notFound identifier), [])

/-- ListRegistries returns the in-memory list verbatim. -/
def ListRegistries (w : World) : List Registry :=
  w.mem

/-- Registry search of SyncRegistry, returning the index and record of the
first name match. -/
def findRegistry : List Registry → String → Option (Nat × Registry)
  | [], _ => none
  | reg :: rest, name =>
    if reg.name == name then some (0, reg)
    else (findRegistry rest name).map fun p => (p.1 + 1, p.2)

/-- Tail of SyncRegistry after the git step: verify, and only on success
set last_sync to now and persist the list. -/
def syncVerifyStep (w : World) (name : String) (now : GoTime) (i : Nat) (reg : Registry)
    (cache1 : CacheState) (evs : List Ev) : World × Except RegErr Unit × List Ev :=
  match verifyLocalRegistry cache1 name with
  | .error ve => ({ w with cache := cache1 }, .error (.syncValidationFailed ve), evs)
  | .ok () =>
    let mem1 := w.mem.set i { reg with lastSync := now }
    ({ mem := mem1, disk := mem1, cache := cache1 }, .ok (), evs)

/-- SyncRegistry: clone when not cloned (by the `.git` predicate),
otherwise pull; then the shared verify-and-persist tail. -/
def SyncRegistry (env : GitEnv) (w : World) (name : String) (now : GoTime) :
    World × Except RegErr Unit × List Ev :=
  match findRegistry w.mem name with
  | none => (w, .error (.notFound name), [])
  | some (i, reg) =>
    if IsRepositoryCloned w.cache name then
      let r := updateRepository env w.cache name
      match r.2.1 with
      | .error ge => ({ w with cache := r.1 }, .error (.syncUpdateFailed ge), r.2.2)
      | .ok () => syncVerifyStep w name now i reg r.1 r.2.2
    else
      let r := CloneRepository env w.cache reg.url name
      match r.2.1 with
      | .error ge => ({ w with cache := r.1 }, .error (.syncCloneFailed ge), r.2.2)
      | .ok () => syncVerifyStep w name now i reg r.1 r.2.2

/-! URL validator (the registry-package URL validator file). The relevant
slice of Go net/url Parse is embedded: scheme extraction, the rejection of
a colon in the first path segment of a scheme-less URL (golang.org issue
16822), and host/path splitting of an authority URL. Query, fragment,
userinfo and percent-escapes do not occur in the embedded call sites'
relevant inputs and are not modelled. -/

/-- Result of net/url getScheme: a malformed leading colon, a scheme plus
the remainder, or no scheme at all. -/
inductive SchemeSplit where
  | malformed
  | found (scheme rest : String)
  | absent
deriving DecidableEq, Repr

/-- Character loop of getScheme: letters continue a scheme; digits and
`+ - .` continue it only after the first character; a colon ends it; any
other character means the URL has no scheme. -/
def getSchemeAux : List Char → List Char → SchemeSplit
  | [], _ => .absent
  | c :: cs, acc =>
    if c.isAlpha then getSchemeAux cs (acc ++ [c])
    else if c.isDigit || c == '+' || c == '-' || c == '.' then
      if acc.isEmpty then .absent else getSchemeAux cs (acc ++ [c])
    else if c == ':' then
      if acc.isEmpty then .malformed else .found (String.mk acc) (String.mk cs)
    else .absent

/-- getScheme on a string. -/
def getScheme (raw : String) : SchemeSplit :=
  getSchemeAux raw.toList []

/-- Parsed URL as far as validateURLFormat reads it. -/
structure GoURL where
  scheme : String
  host : String
  path : String
deriving DecidableEq, Repr

/-- Model of net/url Parse (viaRequest false): none is a parse error. The
scheme is lowercased; `//` starts an authority whose host runs to the next
slash; a scheme-less URL whose first path segment contains a colon is
rejected; a rootless URL with a scheme is opaque (empty host and path). -/
def urlParse (raw : String) : Option GoURL :=
  match getScheme raw with
  | .malformed => none
  | .found scheme rest =>
    let scheme := toLowerAscii scheme
    if strStartsWith rest "//" then
      let after := strDrop rest 2
      let host := String.mk (after.toList.takeWhile fun c => c ≠ '/')
      some { scheme := scheme, host := host, path := strDrop after (strLength host) }
    else
      some { scheme := scheme, host := "", path := "" }
  | .absent =>
    if strStartsWith raw "//" then
      let after := strDrop raw 2
      let host := String.mk (after.toList.takeWhile fun c => c ≠ '/')
      some { scheme := "", host := host, path := strDrop after (strLength host) }
    else if strStartsWith raw "/" then
      some { scheme := "", host := "", path := raw }
    else
      let firstSeg := raw.toList.takeWhile fun c => c ≠ '/'
      if firstSeg.contains ':' then none
      else some { scheme := "", host := "", path := raw }

/-- Errors of validateURLFormat and its helpers, one constructor per
fmt.Errorf call site. -/
inductive URLFmtErr where
  | parseFailed
  | missingScheme
  | unsupportedScheme (s : String)
  | missingHost
  | missingRepoPath
  | invalidSSHFormat
  | sshMissingHost
  | sshMissingPath
  | insufficientPath
  | ghInsufficient
  | ghEmptyOwnerRepo
  | ghBadOwner (o : String)
  | ghBadRepo (r : String)
  | glInsufficient
  | glEmptyRepo
  | glBadRepo (r : String)
  | bbInsufficient
  | bbEmptyWorkspaceRepo
  | genericPathRequired
  | genericEmptyRepo
deriving DecidableEq, Repr

/-- Whether `s` matches `^[a-zA-Z0-9._-]+$`, the owner and repository
character class of the hosting-specific validators. -/
def matchValidName (s : String) : Bool :=
  strLength s > 0 && s.toList.all fun c => c.isAlphanum || c == '.' || c == '_' || c == '-'

/-- Match of the SSH regular expression `^git@([^:]+):([^/].+)$`, returning
host and path on success. The host runs to the first colon and must be
non-empty; the path is everything after that colon and must have at least
two characters, the first not a slash. -/
def matchSSHPattern (raw : String) : Option (String × String) :=
  if !strStartsWith raw "git@" then none
  else
    let rest := strDrop raw 4
    let host := String.mk (rest.toList.takeWhile fun c => c ≠ ':')
    let afterHost := strDrop rest (strLength host)
    if !strStartsWith afterHost ":" then none
    else if host == "" then none
    else
      let path := strDrop afterHost 1
      if strLength path < 2 then none
      else if strStartsWith path "/" then none
      else some (host, path)

/-- validateSSHURL: the regex must match; the two submatch emptiness checks
that follow are unreachable after a match but kept in source order. -/
def validateSSHURL (rawURL : String) : Except URLFmtErr Unit :=
  match matchSSHPattern rawURL with
  | none => .error .invalidSSHFormat
  | some (host, path) =>
    if host == "" then .error .sshMissingHost
    else if path == "" then .error .sshMissingPath
    else .ok ()

/-- validateGitHubURL. -/
def validateGitHubURL (pathParts : List String) : Except URLFmtErr Unit :=
  if pathParts.length < 2 then .error .ghInsufficient
  else
    let owner := pathParts.getD 0 ""
    let repo0 := pathParts.getD 1 ""
    if owner == "" || repo0 == "" then .error .ghEmptyOwnerRepo
    else
      let repo := trimSuffix repo0 ".git"
      if !matchValidName owner then .error (.ghBadOwner owner)
      else if !matchValidName repo then .error (.ghBadRepo repo)
      else .ok ()

/-- validateGitLabURL. -/
def validateGitLabURL (pathParts : List String) : Except URLFmtErr Unit :=
  if pathParts.length < 2 then .error .glInsufficient
  else
    let repo0 := pathParts.getLastD ""
    if repo0 == "" then .error .glEmptyRepo
    else
      let repo := trimSuffix repo0 ".git"
      if !matchValidName repo then .error (.glBadRepo repo)
      else .ok ()

/-- validateBitbucketURL. -/
def validateBitbucketURL (pathParts : List String) : Except URLFmtErr Unit :=
  if pathParts.length < 2 then .error .bbInsufficient
  else
    let workspace := pathParts.getD 0 ""
    let repo0 := pathParts.getD 1 ""
    if workspace == "" || repo0 == "" then .error .bbEmptyWorkspaceRepo
    else .ok ()

/-- validateGenericGitURL. -/
def validateGenericGitURL (pathParts : List String) : Except URLFmtErr Unit :=
  if pathParts.length < 1 then .error .genericPathRequired
  else if pathParts.getLastD "" == "" then .error .genericEmptyRepo
  else .ok ()

/-- validateGitHostingPattern: trailing slash stripped, path split on
slashes after trimming them, at least two segments, then dispatch on the
host (substring tests in source order). -/
def validateGitHostingPattern (host path : String) : Except URLFmtErr Unit :=
  let path1 := trimSuffix path "/"
  let pathParts := splitOnChar (trimSlashes path1) '/'
  if pathParts.length < 2 then .error .insufficientPath
  else if containsSubstr host "github.com" then validateGitHubURL pathParts
  else if containsSubstr host "gitlab.com" || containsSubstr host "gitlab" then validateGitLabURL pathParts
  else if containsSubstr host "bitbucket.org" then validateBitbucketURL pathParts
  else validateGenericGitURL pathParts

/-- validateHTTPSURL. -/
def validateHTTPSURL (u : GoURL) : Except URLFmtErr Unit :=
  if u.host == "" then .error .missingHost
  else if u.path == "" || u.path == "/" then .error .missingRepoPath
  else validateGitHostingPattern u.host u.path

/-- validateURLFormat: parse, scheme required, dispatch on https or git. -/
def validateURLFormat (rawURL : String) : Except URLFmtErr Unit :=
  match urlParse rawURL with
  | none => .error .parseFailed
  | some u =>
    if u.scheme == "" then .error .missingScheme
    else if u.scheme == "https" then validateHTTPSURL u
    else if u.scheme == "git" then validateSSHURL rawURL
    else .error (.unsupportedScheme u.scheme)

/-- URLValidator state: the HTTP client timeout in seconds set by
NewURLValidator. -/
structure URLValidator where
  httpTimeoutSeconds : Nat
deriving DecidableEq, Repr

/-- NewURLValidator sets a 15 second timeout. -/
def NewURLValidator : URLValidator :=
  { httpTimeoutSeconds := 15 }

/-- Outcome of one HTTP GET: transport failure or a status code. -/
inductive HTTPResult where
  | netErr
  | status (code : Nat)
deriving DecidableEq, Repr

/-- Errors of testEndpoint, one constructor per return site (request
creation and transport failure collapse into one). -/
inductive ProbeErr where
  | requestFailed
  | notFound404
  | forbidden403
  | unexpectedStatus (code : Nat)
deriving DecidableEq, Repr

/-- Error of checkHTTPSAccessibility, wrapping the last per-endpoint
error. -/
inductive AccessErr where
  | notAccessible (lastErr : Option ProbeErr)
deriving DecidableEq, Repr

/-- buildGitEndpoints: the ordered candidate list probed for an HTTPS
URL. -/
def buildGitEndpoints (rawURL : String) : List String :=
  let baseURL := trimSuffix rawURL ".git"
  [rawURL]
    ++ (if !strEndsWith rawURL ".git" then [baseURL ++ ".git"] else [])
    ++ [baseURL ++ ".git/info/refs", baseURL ++ "/info/refs", baseURL]

/-- testEndpoint against an HTTP oracle: 200, 301, 302 and 401 are
accepted; 404 and 403 carry specific errors; anything else is
unexpected. -/
def testEndpoint (http : String → HTTPResult) (endpoint : String) : Except ProbeErr Unit :=
  match http endpoint with
  | .netErr => .error .requestFailed
  | .status code =>
    if code == 200 || code == 301 || code == 302 || code == 401 then .ok ()
    else if code == 404 then .error .notFound404
    else if code == 403 then .error .forbidden403
    else .error (.unexpectedStatus code)

/-- Loop of checkHTTPSAccessibility: tries endpoints in order, keeps the
last error, returns on the first success; also returns the endpoints
actually probed, in order. -/
def probeLoop (http : String → HTTPResult) :
    List String → Option ProbeErr → Except AccessErr Unit × List String
  | [], lastErr => (.error (.notAccessible lastErr), [])
  | e :: rest, _ =>
    match testEndpoint http e with
    | .ok () => (.ok (), [e])
    | .error pe =>
      let r := probeLoop http rest (some pe)
      (r.1, e :: r.2)

/-- checkHTTPSAccessibility: probes the candidate list. -/
def checkHTTPSAccessibility (http : String → HTTPResult) (rawURL : String) :
    Except AccessErr Unit × List String :=
  probeLoop http (buildGitEndpoints rawURL) none

/-! Persistence layer (saveRegistries and loadRegistries). The persisted
file holds the json.MarshalIndent encoding of the registry list. JSON
values are modelled structurally; the RFC3339 encoding of a time.Time is
instant-preserving and injective, so a serialized time is carried as the
instant itself. Decoding mirrors encoding/json on the values this encoder
can produce: an absent field leaves the zero value, a type mismatch is an
error. -/

/-- Structural JSON value of the persisted file. -/
inductive JVal where
  | str (s : String)
  | timeVal (t : GoTime)
  | obj (fields : List (String × JVal))
  | arr (xs : List JVal)

/-- Marshalling of one Registry in struct field order; the description
field has omitempty, both timestamps are always emitted (omitempty does
not apply to struct-typed fields such as time.Time). -/
def marshalRegistry (r : Registry) : JVal :=
  .obj ([("url", .str r.url), ("name", .str r.name)]
    ++ (if r.description == "" then [] else [("description", .str r.description)])
    ++ [("added_at", .timeVal r.addedAt), ("last_sync", .timeVal r.lastSync)])

/-- saveRegistries: the file content written for a registry list. -/
def saveRegistriesFile (regs : List Registry) : JVal :=
  .arr (regs.map marshalRegistry)

/-- Field lookup in a JSON object. -/
def jLookup (fields : List (String × JVal)) (key : String) : Option JVal :=
  (fields.find? fun p => p.1 == key).map (·.2)

/-- Decoding of a string-typed struct field: absent keeps the zero value,
non-string is an unmarshal error. -/
def decodeStringField (fields : List (String × JVal)) (key : String) : Option String :=
  match jLookup fields key with
  | none => some ""
  | some (.str s) => some s
  | some _ => none

/-- Decoding of a time.Time struct field. -/
def decodeTimeField (fields : List (String × JVal)) (key : String) : Option GoTime :=
  match jLookup fields key with
  | none => some 0
  | some (.timeVal t) => some t
  | some _ => none

/-- Unmarshalling of one Registry object. -/
def unmarshalRegistry : JVal → Option Registry
  | .obj fields =>
    match decodeStringField fields "url", decodeStringField fields "name",
        decodeStringField fields "description", decodeTimeField fields "added_at",
        decodeTimeField fields "last_sync" with
    | some url, some name, some description, some addedAt, some lastSync =>
      some { url := url, name := name, description := description,
             addedAt := addedAt, lastSync := lastSync }
    | _, _, _, _, _ => none
  | _ => none

/-- Elementwise decoding of the registry array, failing on the first bad
element. -/
def unmarshalRegistryList : List JVal → Option (List Registry)
  | [] => some []
  | j :: rest =>
    match unmarshalRegistry j, unmarshalRegistryList rest with
    | some r, some rs => some (r :: rs)
    | _, _ => none

/-- loadRegistries: a missing file yields the empty list; otherwise the
file must decode as an array of Registry objects. -/
def loadRegistriesFile (file : Option JVal) : Option (List Registry) :=
  match file with
  | none => some []
  | some (.arr xs) => unmarshalRegistryList xs
  | some _ => none

/-! Concrete fixtures shared by the theorems. -/

/-- World with no registries and an empty cache. -/
def emptyWorld : World := { mem := [], disk := [], cache := [] }

/-- Tree whose index.json is valid for the basic check but whose module
mapping is empty, which the full §4.3 validation rejects. -/
def treeEmptyModules : RepoTree :=
  { indexJson := some (some { name := "valid-name", description := "d", version := "1.0.0", modules := [] }),
    dirs := [], moduleFiles := [], modulesEntry := none }

/-- Tree without an index.json. -/
def treeNoIndex : RepoTree :=
  { indexJson := none, dirs := [], moduleFiles := [], modulesEntry := none }

/-- Tree whose index has version "1.0" and an otherwise valid index. -/
def treeBadVersion : RepoTree :=
  { indexJson := some (some { name := "my-registry", description := "d", version := "1.0", modules := [] }),
    dirs := [], moduleFiles := [], modulesEntry := none }

/-- Module whose name differs from the key it is filed under in
`treeKeyMismatch`. -/
def mismatchedModule : Module :=
  { name := "my-mod", description := "d", version := "", path := "p", shell := "" }

/-- Index filing `mismatchedModule` under the key "other-mod". -/
def indexKeyMismatch : RegistryIndex :=
  { name := "my-registry", description := "d", version := "1.0.0",
    modules := [("other-mod", mismatchedModule)] }

/-- Tree whose single module is filed under a key that differs from its
name field. -/
def treeKeyMismatch : RepoTree :=
  { indexJson := some (some indexKeyMismatch), dirs := [], moduleFiles := [], modulesEntry := none }

/-! Claim C6. -/

/-- C6: ValidateStructure, with the index manifest check first, the module
checks second and the directory-shape check last (fail-fast), rejects a
missing manifest, version "1.0", an empty module mapping and a module key
differing from the module name with four pairwise distinct reasons. -/
theorem validateStructure_distinct_reasons :
    ValidateStructure treeNoIndex = .error (.indexFailed .notFound) ∧
    ValidateStructure treeBadVersion = .error (.indexFailed (.invalidVersionFmt "1.0")) ∧
    ValidateStructure treeEmptyModules = .error (.modulesFailed .empty) ∧
    ValidateStructure treeKeyMismatch =
      .error (.modulesFailed (.moduleFailed "other-mod" (.nameMismatch "my-mod" "other-mod"))) ∧
    ([StructErr.indexFailed .notFound, .indexFailed (.invalidVersionFmt "1.0"),
      .modulesFailed .empty,
      .modulesFailed (.moduleFailed "other-mod" (.nameMismatch "my-mod" "other-mod"))].Pairwise (· ≠ ·)) ∧
    (∀ t e, validateIndexJSON t = .error e → ValidateStructure t = .error (.indexFailed e)) ∧
    (∀ t idx e, validateIndexJSON t = .ok idx → validateModules t idx.modules = .error e →
      ValidateStructure t = .error (.modulesFailed e)) ∧
    (∀ t idx, validateIndexJSON t = .ok idx → validateModules t idx.modules = .ok () →
      ValidateStructure t = (validateDirectoryStructure t).mapError .dirFailed) := by
  refine ⟨rfl, rfl, rfl, rfl, by decide, ?_, ?_, ?_⟩
  · intro t e h
    simp only [ValidateStructure, h]
  · intro t idx e h1 h2
    simp only [ValidateStructure, h1, h2]
  · intro t idx h1 h2
    simp only [ValidateStructure, h1, h2]
    cases hd : validateDirectoryStructure t <;> simp [hd, Except.mapError]

/-- Witness for C6: the fail-fast wrapping conjunct applied to a tree with
an unparsable index.json. -/
theorem validateStructure_distinct_reasons_witness :
    ValidateStructure { indexJson := some none, dirs := [], moduleFiles := [], modulesEntry := none } =
      .error (.indexFailed .invalidJSON) :=
  validateStructure_distinct_reasons.2.2.2.2.2.1
    { indexJson := some none, dirs := [], moduleFiles := [], modulesEntry := none } .invalidJSON rfl

/-! Claim C3. The URL format phase never accepts the SSH shorthand: Go
net/url Parse rejects a scheme-less URL whose first path segment contains
a colon, so validateURLFormat fails before its SSH branch, which is only
reachable for git:// URLs; validateSSHURL itself (the intended acceptor,
asserted by the repository's own tests) does accept the shorthand. -/

/-- C3: validateURLFormat rejects the SSH shorthand git@github.com:user/repo.git
with a parse error, rejects the slash variant for lack of a scheme, and
the never-reached validateSSHURL would have accepted the shorthand. -/
theorem sshShorthand_rejected_by_format_validation :
    validateURLFormat "git@github.com:user/repo.git" = .error .parseFailed ∧
    validateURLFormat "git@github.com/user/repo" = .error .missingScheme ∧
    validateSSHURL "git@github.com:user/repo.git" = .ok () := by
  refine ⟨rfl, rfl, rfl⟩

/-! Claim C8. -/

/-- Decoding inverts encoding on one record; the description field is the
only omitempty one and round-trips through absence as the empty string. -/
theorem unmarshalRegistry_marshalRegistry (r : Registry) :
    unmarshalRegistry (marshalRegistry r) = some r := by
  obtain ⟨url, name, description, addedAt, lastSync⟩ := r
  by_cases hd : description = ""
  · subst hd
    rfl
  · have hb : (description == "") = false := by
      simpa using hd
    simp [marshalRegistry, unmarshalRegistry, decodeStringField, decodeTimeField, jLookup,
      List.find?, hb]

/-- Decoding inverts encoding on a record list. -/
theorem unmarshalRegistryList_marshal (regs : List Registry) :
    unmarshalRegistryList (regs.map marshalRegistry) = some regs := by
  induction regs with
  | nil => rfl
  | cons r rest ih => simp [unmarshalRegistryList, unmarshalRegistry_marshalRegistry, ih]

/-- C8: saving the registry list and reloading it reproduces the list, in
particular the (name, url, added_at, last_sync) tuple of every record. -/
theorem saveLoad_roundtrip (regs : List Registry) :
    loadRegistriesFile (some (saveRegistriesFile regs)) = some regs ∧
    (loadRegistriesFile (some (saveRegistriesFile regs))).map
        (List.map fun r => (r.name, r.url, r.addedAt, r.lastSync)) =
      some (regs.map fun r => (r.name, r.url, r.addedAt, r.lastSync)) := by
  have h : loadRegistriesFile (some (saveRegistriesFile regs)) = some regs := by
    simp [loadRegistriesFile, saveRegistriesFile, unmarshalRegistryList_marshal]
  exact ⟨h, by rw [h]; rfl⟩

/-! Claim C10. -/

/-- C10: on a cache subdirectory that exists without a .git directory, the
cloned predicate is false, CloneRepository nevertheless delegates to the
pull-update (its existence test is plain directory existence), and
RemoveRepository fails. -/
theorem gitlessDir_clone_delegates_to_pull (env : GitEnv) (cache : CacheState)
    (url name : String) (d : DirState)
    (hdir : lookupDir cache name = some d) (hnogit : d.hasGit = false) :
    IsRepositoryCloned cache name = false ∧
    CloneRepository env cache url name =
      ((updateRepository env cache name).1, (updateRepository env cache name).2.1,
        Ev.logDebugRepoExists name :: (updateRepository env cache name).2.2) ∧
    (∀ u n, Ev.gitCloneCmd u n ∉ (CloneRepository env cache url name).2.2) ∧
    Ev.gitPullCmd name ∈ (CloneRepository env cache url name).2.2 ∧
    (RemoveRepository env cache name).2.1 = .error (.repoNotFound name) := by
  have hcl : IsRepositoryCloned cache name = false := by
    simp [IsRepositoryCloned, hdir, hnogit]
  have hdel : CloneRepository env cache url name =
      ((updateRepository env cache name).1, (updateRepository env cache name).2.1,
        Ev.logDebugRepoExists name :: (updateRepository env cache name).2.2) := by
    unfold CloneRepository
    rw [hdir]
  refine ⟨hcl, hdel, ?_, ?_, ?_⟩
  · intro u n
    rw [hdel]
    unfold updateRepository
    cases env.pullOutcome <;> simp
  · rw [hdel]
    unfold updateRepository
    cases env.pullOutcome <;> simp
  · unfold RemoveRepository
    rw [hcl]
    simp

/-- Witness for C10 at a concrete one-directory cache. -/
theorem gitlessDir_clone_delegates_to_pull_witness :
    lookupDir [("reg1", (⟨false, treeNoIndex⟩ : DirState))] "reg1" = some ⟨false, treeNoIndex⟩ ∧
    IsRepositoryCloned [("reg1", (⟨false, treeNoIndex⟩ : DirState))] "reg1" = false ∧
    (RemoveRepository ⟨none, none, true⟩ [("reg1", (⟨false, treeNoIndex⟩ : DirState))] "reg1").2.1 =
      .error (.repoNotFound "reg1") := by
  have h := gitlessDir_clone_delegates_to_pull ⟨none, none, true⟩
    [("reg1", (⟨false, treeNoIndex⟩ : DirState))] "u" "reg1" ⟨false, treeNoIndex⟩ (by decide) rfl
  exact ⟨by decide, h.1, h.2.2.2.2⟩

/-! Claim C9. GetRepositoryInfo does fail outright for a name that is not
cloned; for a cloned name every introspection sub-step failure leaves the
corresponding fields at their zero values. -/

/-- Counterexample for C9 as stated: on an empty cache the call returns an
error rather than a RepositoryInfo. -/
theorem getRepositoryInfo_fails_when_not_cloned :
    GetRepositoryInfo "cache" [] ⟨none, none⟩ "reg1" = .error (.repoNotCloned "reg1") := rfl

/-- Fields untouched by the remote-URL step. -/
theorem infoAfterRemote_fields (info : RepositoryInfo) (r : Option String) :
    (infoAfterRemote info r).name = info.name ∧
    (infoAfterRemote info r).path = info.path ∧
    (infoAfterRemote info r).lastCommitHash = info.lastCommitHash ∧
    (infoAfterRemote info r).lastCommitMessage = info.lastCommitMessage ∧
    (infoAfterRemote info r).lastCommitTime = info.lastCommitTime := by
  cases r <;> exact ⟨rfl, rfl, rfl, rfl, rfl⟩

/-- Fields untouched by the commit-log step. -/
theorem infoAfterLog_fields (info : RepositoryInfo) (l : Option String) :
    (infoAfterLog info l).name = info.name ∧
    (infoAfterLog info l).path = info.path ∧
    (infoAfterLog info l).remoteURL = info.remoteURL := by
  cases l with
  | none => exact ⟨rfl, rfl, rfl⟩
  | some out =>
    simp only [infoAfterLog]
    by_cases hlen : (splitOnChar (strTrim out) '|').length ≥ 3
    · rw [if_pos hlen]
      cases parseUnixTimestamp ((splitOnChar (strTrim out) '|').getD 2 "") <;> exact ⟨rfl, rfl, rfl⟩
    · rw [if_neg hlen]
      exact ⟨rfl, rfl, rfl⟩

/-- C9 amended: for every cloned name the call never fails; name and path
are set, and each field whose introspection sub-step fails stays at its
zero value. -/
theorem getRepositoryInfo_best_effort (cacheDir : String) (cache : CacheState)
    (intro : GitIntrospection) (name : String)
    (h : IsRepositoryCloned cache name = true) :
    ∃ info, GetRepositoryInfo cacheDir cache intro name = .ok info ∧
      info.name = name ∧
      info.path = GetRepositoryPath cacheDir name ∧
      (intro.remoteOut = none → info.remoteURL = "") ∧
      (intro.logOut = none →
        info.lastCommitHash = "" ∧ info.lastCommitMessage = "" ∧ info.lastCommitTime = 0) ∧
      (∀ out, intro.logOut = some out → (splitOnChar (strTrim out) '|').length < 3 →
        info.lastCommitHash = "" ∧ info.lastCommitMessage = "" ∧ info.lastCommitTime = 0) ∧
      (∀ out, intro.logOut = some out → 3 ≤ (splitOnChar (strTrim out) '|').length →
        parseUnixTimestamp ((splitOnChar (strTrim out) '|').getD 2 "") = .error () →
        info.lastCommitTime = 0) := by
  have hstep : GetRepositoryInfo cacheDir cache intro name =
      .ok (infoAfterLog (infoAfterRemote
        { name := name, path := GetRepositoryPath cacheDir name, remoteURL := "",
          lastCommitHash := "", lastCommitMessage := "", lastCommitTime := 0 }
        intro.remoteOut) intro.logOut) := by
    unfold GetRepositoryInfo
    rw [h]
    rfl
  refine ⟨_, hstep, ?_, ?_, ?_, ?_, ?_, ?_⟩
  · rw [(infoAfterLog_fields _ _).1, (infoAfterRemote_fields _ _).1]
  · rw [(infoAfterLog_fields _ _).2.1, (infoAfterRemote_fields _ _).2.1]
  · intro hro
    rw [(infoAfterLog_fields _ _).2.2, hro]
    rfl
  · intro hlo
    rw [hlo]
    exact ⟨(infoAfterRemote_fields _ _).2.2.1, (infoAfterRemote_fields _ _).2.2.2.1,
      (infoAfterRemote_fields _ _).2.2.2.2⟩
  · intro out hlo hlen
    rw [hlo]
    simp only [infoAfterLog]
    rw [if_neg (by omega)]
    exact ⟨(infoAfterRemote_fields _ _).2.2.1, (infoAfterRemote_fields _ _).2.2.2.1,
      (infoAfterRemote_fields _ _).2.2.2.2⟩
  · intro out hlo hlen hperr
    rw [hlo]
    simp only [infoAfterLog]
    rw [if_pos hlen, hperr]
    exact (infoAfterRemote_fields _ _).2.2.2.2

/-- Witness for C9 amended: a cloned repository whose introspection steps
all fail yields a record with name and path set and the remote URL and
commit fields at their zero values. -/
theorem getRepositoryInfo_best_effort_witness :
    IsRepositoryCloned [("reg1", (⟨true, treeNoIndex⟩ : DirState))] "reg1" = true ∧
    ∃ info, GetRepositoryInfo "cache" [("reg1", (⟨true, treeNoIndex⟩ : DirState))] ⟨none, none⟩ "reg1" =
        .ok info ∧ info.name = "reg1" ∧ info.path = "cache/reg1" ∧ info.remoteURL = "" ∧
        info.lastCommitHash = "" ∧ info.lastCommitMessage = "" ∧ info.lastCommitTime = 0 := by
  refine ⟨by decide, ?_⟩
  obtain ⟨info, h1, h2, h3, h4, h5, _⟩ := getRepositoryInfo_best_effort "cache"
    [("reg1", (⟨true, treeNoIndex⟩ : DirState))] ⟨none, none⟩ "reg1" (by decide)
  obtain ⟨h6, h7, h8⟩ := h5 rfl
  exact ⟨info, h1, h2, by simpa [GetRepositoryPath] using h3, h4 rfl, h6, h7, h8⟩

/-! Claim C5. -/

/-- Whether testEndpoint accepts an endpoint. -/
def acceptedEndpoint (http : String → HTTPResult) (e : String) : Bool :=
  match testEndpoint http e with
  | .ok () => true
  | .error _ => false

/-- The per-endpoint error, when testEndpoint fails. -/
def probeFailure (http : String → HTTPResult) (e : String) : Option ProbeErr :=
  match testEndpoint http e with
  | .ok () => none
  | .error pe => some pe

/-- Value of the loop's lastErr variable after scanning a list on which
every probe fails. -/
def finalProbeErr (http : String → HTTPResult) : List String → Option ProbeErr → Option ProbeErr
  | [], le => le
  | e :: rest, _ => finalProbeErr http rest (probeFailure http e)

/-- On a list ending in `x`, the final lastErr is the failure of `x`. -/
theorem finalProbeErr_append (http : String → HTTPResult) :
    ∀ (l : List String) (x : String) (le : Option ProbeErr),
      finalProbeErr http (l ++ [x]) le = probeFailure http x := by
  intro l
  induction l with
  | nil => intro x le; rfl
  | cons a l2 ih => intro x le; exact ih x (probeFailure http a)

/-- The probe loop succeeds exactly when some listed endpoint is
accepted. -/
theorem probeLoop_ok_iff (http : String → HTTPResult) :
    ∀ (eps : List String) (le : Option ProbeErr),
      (probeLoop http eps le).1 = .ok () ↔ ∃ e ∈ eps, acceptedEndpoint http e = true := by
  intro eps
  induction eps with
  | nil => intro le; simp [probeLoop]
  | cons e rest ih =>
    intro le
    unfold probeLoop
    cases hte : testEndpoint http e with
    | ok u =>
      cases u
      constructor
      · intro _
        exact ⟨e, List.mem_cons_self e rest, by simp [acceptedEndpoint, hte]⟩
      · intro _
        rfl
    | error pe =>
      constructor
      · intro h1
        obtain ⟨x, hx, hacc⟩ := (ih (some pe)).mp h1
        exact ⟨x, List.mem_cons_of_mem e hx, hacc⟩
      · rintro ⟨x, hx, hacc⟩
        rcases List.mem_cons.mp hx with hxe | hxr
        · subst hxe
          exact absurd hacc (by simp [acceptedEndpoint, hte])
        · exact (ih (some pe)).mpr ⟨x, hxr, hacc⟩

/-- The endpoints actually probed are the rejected ones up to and
including the first accepted one. -/
theorem probeLoop_probed (http : String → HTTPResult) :
    ∀ (eps : List String) (le : Option ProbeErr),
      (probeLoop http eps le).2 =
        eps.takeWhile (fun e => !acceptedEndpoint http e) ++
          (eps.drop (eps.takeWhile (fun e => !acceptedEndpoint http e)).length).take 1 := by
  intro eps
  induction eps with
  | nil => intro le; rfl
  | cons e rest ih =>
    intro le
    unfold probeLoop
    cases hte : testEndpoint http e with
    | ok u =>
      cases u
      have hacc : acceptedEndpoint http e = true := by simp [acceptedEndpoint, hte]
      simp [List.takeWhile_cons, hacc]
    | error pe =>
      have hacc : acceptedEndpoint http e = false := by simp [acceptedEndpoint, hte]
      simp [List.takeWhile_cons, hacc, ih (some pe)]

/-- When every endpoint fails, the loop reports the final lastErr. -/
theorem probeLoop_allfail (http : String → HTTPResult) :
    ∀ (eps : List String) (le : Option ProbeErr),
      (∀ e ∈ eps, acceptedEndpoint http e = false) →
      (probeLoop http eps le).1 = .error (.notAccessible (finalProbeErr http eps le)) := by
  intro eps
  induction eps with
  | nil => intro le _; rfl
  | cons e rest ih =>
    intro le hall
    have hacc := hall e (List.mem_cons_self e rest)
    unfold probeLoop
    cases hte : testEndpoint http e with
    | ok u => exact absurd hacc (by simp [acceptedEndpoint, hte])
    | error pe =>
      have h2 : ∀ x ∈ rest, acceptedEndpoint http x = false :=
        fun x hx => hall x (List.mem_cons_of_mem e hx)
      have hpf : probeFailure http e = some pe := by simp [probeFailure, hte]
      simpa [finalProbeErr, hpf] using ih (some pe) h2

/-- Decomposition of the candidate list with its last element (the base
URL with any .git suffix stripped) split off. -/
theorem buildGitEndpoints_split (raw : String) :
    buildGitEndpoints raw =
      ((if !strEndsWith raw ".git" then
          [raw, trimSuffix raw ".git" ++ ".git"]
        else [raw]) ++
        [trimSuffix raw ".git" ++ ".git/info/refs", trimSuffix raw ".git" ++ "/info/refs"]) ++
      [trimSuffix raw ".git"] := by
  by_cases hg : strEndsWith raw ".git" <;> simp [buildGitEndpoints, hg]

/-- C5: reachability for an HTTPS URL probes exactly the ordered candidate
list (raw; raw plus .git when absent; base.git/info/refs; base/info/refs;
stripped base) with the 15-second-timeout client, succeeds exactly when
some candidate in order returns 200, 301, 302 or 401, probes nothing past
the first accepted candidate, and on total failure carries the last
encountered reason, with 404 and 403 mapped to distinct specific
reasons. -/
theorem httpsAccessibility_probes_candidates (http : String → HTTPResult) (rawURL : String) :
    NewURLValidator.httpTimeoutSeconds = 15 ∧
    buildGitEndpoints rawURL =
      (if strEndsWith rawURL ".git" then
        [rawURL, trimSuffix rawURL ".git" ++ ".git/info/refs",
          trimSuffix rawURL ".git" ++ "/info/refs", trimSuffix rawURL ".git"]
      else
        [rawURL, rawURL ++ ".git", rawURL ++ ".git/info/refs", rawURL ++ "/info/refs", rawURL]) ∧
    ((checkHTTPSAccessibility http rawURL).1 = .ok () ↔
      ∃ e ∈ buildGitEndpoints rawURL, acceptedEndpoint http e = true) ∧
    (checkHTTPSAccessibility http rawURL).2 =
      (buildGitEndpoints rawURL).takeWhile (fun e => !acceptedEndpoint http e) ++
        ((buildGitEndpoints rawURL).drop
          ((buildGitEndpoints rawURL).takeWhile (fun e => !acceptedEndpoint http e)).length).take 1 ∧
    ((∀ e ∈ buildGitEndpoints rawURL, acceptedEndpoint http e = false) →
      (checkHTTPSAccessibility http rawURL).1 =
        .error (.notAccessible (probeFailure http (trimSuffix rawURL ".git")))) ∧
    (∀ e, http e = .status 404 → testEndpoint http e = .error .notFound404) ∧
    (∀ e, http e = .status 403 → testEndpoint http e = .error .forbidden403) ∧
    ProbeErr.notFound404 ≠ ProbeErr.forbidden403 := by
  refine ⟨rfl, ?_, ?_, ?_, ?_, ?_, ?_, by decide⟩
  · by_cases hg : strEndsWith rawURL ".git"
    · simp [buildGitEndpoints, hg]
    · simp [buildGitEndpoints, hg, trimSuffix]
  · exact probeLoop_ok_iff http (buildGitEndpoints rawURL) none
  · exact probeLoop_probed http (buildGitEndpoints rawURL) none
  · intro hall
    have h1 := probeLoop_allfail http (buildGitEndpoints rawURL) none hall
    rw [buildGitEndpoints_split rawURL, finalProbeErr_append] at h1
    rw [← buildGitEndpoints_split rawURL] at h1
    exact h1
  · intro e he
    simp [testEndpoint, he]
  · intro e he
    simp [testEndpoint, he]

/-- Witness for C5: with every endpoint answering 404, the check fails
carrying the not-found reason, and a 404 probe is the not-found error. -/
theorem httpsAccessibility_probes_candidates_witness :
    (checkHTTPSAccessibility (fun _ => .status 404) "https://github.com/user/repo").1 =
      .error (.notAccessible (some .notFound404)) ∧
    testEndpoint (fun _ => .status 404) "https://github.com/user/repo" = .error .notFound404 := by
  have h := httpsAccessibility_probes_candidates (fun _ => .status 404) "https://github.com/user/repo"
  have hall : ∀ e ∈ buildGitEndpoints "https://github.com/user/repo",
      acceptedEndpoint (fun _ => .status 404) e = false := fun e _ => rfl
  exact ⟨h.2.2.2.2.1 hall, h.2.2.2.2.2.1 _ rfl⟩

/-! Claims C1 and C4: AddRegistry. -/

/-- Environment whose clone yields the empty-modules tree and whose
removals succeed. -/
def envEmptyModules : GitEnv :=
  { cloneOutcome := some treeEmptyModules, pullOutcome := none, removeAllOutcome := true }

/-- Environment whose clone yields a tree without index.json and whose
removals succeed. -/
def envNoIndex : GitEnv :=
  { cloneOutcome := some treeNoIndex, pullOutcome := none, removeAllOutcome := true }

/-- Environment whose clone yields a tree without index.json and whose
removals fail. -/
def envNoIndexRemoveFails : GitEnv :=
  { cloneOutcome := some treeNoIndex, pullOutcome := none, removeAllOutcome := false }

/-- Record appended by a successful AddRegistry. -/
abbrev newRegistry (url name : String) (now : GoTime) : Registry :=
  { url := url, name := name, description := "", addedAt := now, lastSync := now }

/-- Execution equations of AddRegistry past a passing duplicate check and
a successful clone, split on the basic verification outcome. -/
theorem addRegistry_run (env : GitEnv) (w : World) (url name : String) (now : GoTime)
    (hdup : findDup w.mem url name = none)
    (hclone : (CloneRepository env w.cache url name).2.1 = .ok ()) :
    (∀ e, verifyLocalRegistry (CloneRepository env w.cache url name).1 name = .error e →
      AddRegistry env w url name now =
        ({ w with cache := (RemoveRepository env (CloneRepository env w.cache url name).1 name).1 },
         .error (.validationFailed e),
         (CloneRepository env w.cache url name).2.2 ++
           (RemoveRepository env (CloneRepository env w.cache url name).1 name).2.2)) ∧
    (verifyLocalRegistry (CloneRepository env w.cache url name).1 name = .ok () →
      AddRegistry env w url name now =
        ({ mem := w.mem ++ [newRegistry url name now],
           disk := w.mem ++ [newRegistry url name now],
           cache := (CloneRepository env w.cache url name).1 },
         .ok (), (CloneRepository env w.cache url name).2.2)) := by
  constructor
  · intro e hv
    simp only [AddRegistry, hdup, hclone, hv]
  · intro hv
    simp only [AddRegistry, hdup, hclone, hv]

/-- Counterexample for C1 as stated: a cloned tree with an empty module
mapping fails the full §4.3 validation, yet AddRegistry succeeds and
persists the record, because it runs only the basic index check. -/
theorem addRegistry_skips_full_validation_cex :
    ValidateStructure treeEmptyModules = .error (.modulesFailed .empty) ∧
    (AddRegistry envEmptyModules emptyWorld "https://example.com/u/r" "reg1" 5).2.1 = .ok () ∧
    (AddRegistry envEmptyModules emptyWorld "https://example.com/u/r" "reg1" 5).1.mem =
      [{ url := "https://example.com/u/r", name := "reg1", description := "",
         addedAt := 5, lastSync := 5 }] ∧
    (AddRegistry envEmptyModules emptyWorld "https://example.com/u/r" "reg1" 5).1.disk =
      (AddRegistry envEmptyModules emptyWorld "https://example.com/u/r" "reg1" 5).1.mem :=
  ⟨rfl, rfl, rfl, rfl⟩

/-- C1 amended: after a successful clone, AddRegistry gates persistence on
the basic index verification (index.json present, parses, non-empty name):
verification failure returns that error and persists nothing; success
appends the record with added_at and last_sync set to now and persists. -/
theorem addRegistry_gates_on_basic_verification (env : GitEnv) (w : World)
    (url name : String) (now : GoTime)
    (hdup : findDup w.mem url name = none)
    (hclone : (CloneRepository env w.cache url name).2.1 = .ok ()) :
    (∀ e, verifyLocalRegistry (CloneRepository env w.cache url name).1 name = .error e →
      (AddRegistry env w url name now).2.1 = .error (.validationFailed e) ∧
      (AddRegistry env w url name now).1.mem = w.mem ∧
      (AddRegistry env w url name now).1.disk = w.disk) ∧
    (verifyLocalRegistry (CloneRepository env w.cache url name).1 name = .ok () →
      (AddRegistry env w url name now).2.1 = .ok () ∧
      (AddRegistry env w url name now).1.mem =
        w.mem ++ [{ url := url, name := name, description := "", addedAt := now, lastSync := now }] ∧
      (AddRegistry env w url name now).1.disk = (AddRegistry env w url name now).1.mem) := by
  obtain ⟨hrun1, hrun2⟩ := addRegistry_run env w url name now hdup hclone
  constructor
  · intro e hv
    refine ⟨?_, ?_, ?_⟩ <;> rw [hrun1 e hv]
  · intro hv
    refine ⟨?_, ?_, ?_⟩ <;> rw [hrun2 hv]

/-- Witness for C1 amended: a clone without index.json is rejected with
the index-not-found verification error. -/
theorem addRegistry_gates_on_basic_verification_witness :
    findDup emptyWorld.mem "https://example.com/u/r" "reg1" = none ∧
    (CloneRepository envNoIndex emptyWorld.cache "https://example.com/u/r" "reg1").2.1 = .ok () ∧
    verifyLocalRegistry (CloneRepository envNoIndex emptyWorld.cache "https://example.com/u/r" "reg1").1
      "reg1" = .error .indexNotFound ∧
    (AddRegistry envNoIndex emptyWorld "https://example.com/u/r" "reg1" 3).2.1 =
      .error (.validationFailed .indexNotFound) := by
  have h := (addRegistry_gates_on_basic_verification envNoIndex emptyWorld
    "https://example.com/u/r" "reg1" 3 rfl rfl).1 .indexNotFound rfl
  exact ⟨rfl, rfl, rfl, h.1⟩

/-- The clone step never emits the cache-removal warning message. -/
theorem cloneTrace_noWarn (env : GitEnv) (cache : CacheState) (url name n : String) :
    Ev.logWarnRemoveCacheFailed n ∉ (CloneRepository env cache url name).2.2 := by
  unfold CloneRepository updateRepository
  cases lookupDir cache name <;> cases env.pullOutcome <;> cases env.cloneOutcome <;> simp

/-- The removal step never emits the cache-removal warning message. -/
theorem removeTrace_noWarn (env : GitEnv) (cache : CacheState) (name n : String) :
    Ev.logWarnRemoveCacheFailed n ∉ (RemoveRepository env cache name).2.2 := by
  unfold RemoveRepository
  by_cases h : IsRepositoryCloned cache name <;> by_cases h2 : env.removeAllOutcome <;>
    simp [h, h2]

/-- Removal empties the directory entry. -/
theorem lookupDir_removeDir (cache : CacheState) (name : String) :
    lookupDir (removeDir cache name) name = none := by
  have h : (removeDir cache name).find? (fun p => p.1 == name) = none := by
    rw [List.find?_eq_none]
    intro x hx
    have hkeep := List.of_mem_filter hx
    simpa using hkeep
  simp [lookupDir, alistFind, removeDir, h]

/-- Counterexample for C4 as stated: when the cleanup removal fails, the
cache directory is left behind and the removal error is nowhere logged
(the trace carries no message about it); the validation error is still the
one returned and nothing is persisted. -/
theorem addRegistry_cleanup_failure_cex :
    (AddRegistry envNoIndexRemoveFails emptyWorld "https://example.com/u/r" "reg1" 5).2.1 =
      .error (.validationFailed .indexNotFound) ∧
    (AddRegistry envNoIndexRemoveFails emptyWorld "https://example.com/u/r" "reg1" 5).1.mem = [] ∧
    lookupDir (AddRegistry envNoIndexRemoveFails emptyWorld "https://example.com/u/r" "reg1" 5).1.cache
      "reg1" = some ⟨true, treeNoIndex⟩ ∧
    (AddRegistry envNoIndexRemoveFails emptyWorld "https://example.com/u/r" "reg1" 5).2.2 =
      [.logInfoCloning "https://example.com/u/r" "reg1", .gitCloneCmd "https://example.com/u/r" "reg1",
       .logDebugCloned "reg1", .logInfoRemoving "reg1"] ∧
    (∀ n, Ev.logWarnRemoveCacheFailed n ∉
      (AddRegistry envNoIndexRemoveFails emptyWorld "https://example.com/u/r" "reg1" 5).2.2) := by
  refine ⟨rfl, rfl, rfl, rfl, ?_⟩
  intro n
  have ht : (AddRegistry envNoIndexRemoveFails emptyWorld "https://example.com/u/r" "reg1" 5).2.2 =
      [.logInfoCloning "https://example.com/u/r" "reg1", .gitCloneCmd "https://example.com/u/r" "reg1",
       .logDebugCloned "reg1", .logInfoRemoving "reg1"] := rfl
  rw [ht]
  simp

/-- C4 amended: on validation failure after a successful clone, AddRegistry
returns the validation error (a cleanup-removal error is silently
discarded, never logged and never propagated), persists nothing, and the
cache directory is gone whenever the removal itself succeeded. -/
theorem addRegistry_validation_failure_rollback (env : GitEnv) (w : World)
    (url name : String) (now : GoTime)
    (hdup : findDup w.mem url name = none)
    (hclone : (CloneRepository env w.cache url name).2.1 = .ok ())
    (e : VerifyErr)
    (hverify : verifyLocalRegistry (CloneRepository env w.cache url name).1 name = .error e) :
    (AddRegistry env w url name now).2.1 = .error (.validationFailed e) ∧
    (AddRegistry env w url name now).1.mem = w.mem ∧
    (AddRegistry env w url name now).1.disk = w.disk ∧
    (∀ n, Ev.logWarnRemoveCacheFailed n ∉ (AddRegistry env w url name now).2.2) ∧
    (env.removeAllOutcome = true →
      IsRepositoryCloned (CloneRepository env w.cache url name).1 name = true →
      lookupDir (AddRegistry env w url name now).1.cache name = none) := by
  have key := (addRegistry_run env w url name now hdup hclone).1 e hverify
  have htrace : (AddRegistry env w url name now).2.2 =
      (CloneRepository env w.cache url name).2.2 ++
        (RemoveRepository env (CloneRepository env w.cache url name).1 name).2.2 := by
    rw [key]
  have hcache : (AddRegistry env w url name now).1.cache =
      (RemoveRepository env (CloneRepository env w.cache url name).1 name).1 := by
    rw [key]
  refine ⟨by rw [key], by rw [key], by rw [key], ?_, ?_⟩
  · intro n
    rw [htrace]
    intro hmem
    rcases List.mem_append.mp hmem with hm | hm
    · exact cloneTrace_noWarn env w.cache url name n hm
    · exact removeTrace_noWarn env (CloneRepository env w.cache url name).1 name n hm
  · intro hro hcl
    rw [hcache]
    unfold RemoveRepository
    rw [hcl, hro]
    simpa using lookupDir_removeDir (CloneRepository env w.cache url name).1 name

/-- Witness for C4 amended at a concrete failing clone with a succeeding
removal: the error is the validation error, nothing is persisted, and the
cache directory is gone. -/
theorem addRegistry_validation_failure_rollback_witness :
    (AddRegistry envNoIndex emptyWorld "https://example.com/u/r" "reg1" 7).2.1 =
      .error (.validationFailed .indexNotFound) ∧
    (AddRegistry envNoIndex emptyWorld "https://example.com/u/r" "reg1" 7).1.mem = [] ∧
    lookupDir (AddRegistry envNoIndex emptyWorld "https://example.com/u/r" "reg1" 7).1.cache
      "reg1" = none := by
  have h := addRegistry_validation_failure_rollback envNoIndex emptyWorld
    "https://example.com/u/r" "reg1" 7 rfl rfl .indexNotFound rfl
  exact ⟨h.1, h.2.1, h.2.2.2.2 rfl rfl⟩

/-! Claim C2: SyncRegistry. -/

/-- C2: on a registered name whose git step (pull when cloned, otherwise
the clone path) succeeds, verification is what decides the outcome: on
verification failure the call returns the sync-validation error and leaves
the in-memory list and the persisted list untouched (in particular
last_sync); success holds exactly when verification passes, and then
last_sync of that record is set to now and the whole list is persisted. -/
theorem syncRegistry_validation_gate (env : GitEnv) (w : World) (name : String) (now : GoTime)
    (i : Nat) (reg : Registry) (hfind : findRegistry w.mem name = some (i, reg))
    (hgit : (if IsRepositoryCloned w.cache name then updateRepository env w.cache name
             else CloneRepository env w.cache reg.url name).2.1 = .ok ()) :
    (∀ e, verifyLocalRegistry (if IsRepositoryCloned w.cache name then
          updateRepository env w.cache name
        else CloneRepository env w.cache reg.url name).1 name = .error e →
      (SyncRegistry env w name now).2.1 = .error (.syncValidationFailed e) ∧
      (SyncRegistry env w name now).1.mem = w.mem ∧
      (SyncRegistry env w name now).1.disk = w.disk) ∧
    ((SyncRegistry env w name now).2.1 = .ok () ↔
      verifyLocalRegistry (if IsRepositoryCloned w.cache name then
          updateRepository env w.cache name
        else CloneRepository env w.cache reg.url name).1 name = .ok ()) ∧
    (verifyLocalRegistry (if IsRepositoryCloned w.cache name then
          updateRepository env w.cache name
        else CloneRepository env w.cache reg.url name).1 name = .ok () →
      (SyncRegistry env w name now).2.1 = .ok () ∧
      (SyncRegistry env w name now).1.mem = w.mem.set i { reg with lastSync := now } ∧
      (SyncRegistry env w name now).1.disk = (SyncRegistry env w name now).1.mem) := by
  by_cases hc : IsRepositoryCloned w.cache name
  · rw [if_pos hc] at hgit
    simp only [if_pos hc]
    have key : SyncRegistry env w name now = syncVerifyStep w name now i reg
        (updateRepository env w.cache name).1 (updateRepository env w.cache name).2.2 := by
      simp only [SyncRegistry, hfind, hc, if_true, hgit]
    refine ⟨?_, ?_, ?_⟩
    · intro e hv
      rw [key]
      unfold syncVerifyStep
      rw [hv]
      exact ⟨rfl, rfl, rfl⟩
    · rw [key]
      unfold syncVerifyStep
      cases hv : verifyLocalRegistry (updateRepository env w.cache name).1 name with
      | error ve => simp
      | ok u => cases u; simp
    · intro hv
      rw [key]
      unfold syncVerifyStep
      rw [hv]
      exact ⟨rfl, rfl, rfl⟩
  · rw [if_neg hc] at hgit
    simp only [if_neg hc]
    have key : SyncRegistry env w name now = syncVerifyStep w name now i reg
        (CloneRepository env w.cache reg.url name).1 (CloneRepository env w.cache reg.url name).2.2 := by
      simp only [SyncRegistry, hfind]
      rw [if_neg hc]
      simp only [hgit]
    refine ⟨?_, ?_, ?_⟩
    · intro e hv
      rw [key]
      unfold syncVerifyStep
      rw [hv]
      exact ⟨rfl, rfl, rfl⟩
    · rw [key]
      unfold syncVerifyStep
      cases hv : verifyLocalRegistry (CloneRepository env w.cache reg.url name).1 name with
      | error ve => simp
      | ok u => cases u; simp
    · intro hv
      rw [key]
      unfold syncVerifyStep
      rw [hv]
      exact ⟨rfl, rfl, rfl⟩

/-- One-registry world with an empty cache, synced never. -/
def oneRegWorld : World :=
  { mem := [{ url := "https://example.com/u/r", name := "reg1", description := "",
              addedAt := 1, lastSync := 1 }],
    disk := [{ url := "https://example.com/u/r", name := "reg1", description := "",
               addedAt := 1, lastSync := 1 }],
    cache := [] }

/-- Witness for C2: a sync whose fresh clone produces a tree without
index.json fails validation, leaves last_sync at 1 and does not rewrite
the persisted list. -/
theorem syncRegistry_validation_gate_witness :
    (SyncRegistry envNoIndex oneRegWorld "reg1" 9).2.1 =
      .error (.syncValidationFailed .indexNotFound) ∧
    (SyncRegistry envNoIndex oneRegWorld "reg1" 9).1.mem = oneRegWorld.mem ∧
    (SyncRegistry envNoIndex oneRegWorld "reg1" 9).1.disk = oneRegWorld.disk := by
  have h := (syncRegistry_validation_gate envNoIndex oneRegWorld "reg1" 9 0
    { url := "https://example.com/u/r", name := "reg1", description := "",
      addedAt := 1, lastSync := 1 } rfl rfl).1 .indexNotFound rfl
  exact ⟨h.1, h.2.1, h.2.2⟩

/-! Claim C7: uniqueness of names and urls. -/

/-- Pairwise-distinct names and urls of a registry list. -/
def RegUnique (regs : List Registry) : Prop :=
  (regs.map Registry.name).Nodup ∧ (regs.map Registry.url).Nodup

/-- Client-state invariant: the in-memory list is duplicate-free and the
persisted list equals it. -/
def StateInv (w : World) : Prop :=
  RegUnique w.mem ∧ w.disk = w.mem

/-- One public mutating operation of the registry client. -/
inductive ClientStep : World → World → Prop where
  | add (env : GitEnv) (w : World) (url name : String) (now : GoTime) :
      ClientStep w (AddRegistry env w url name now).1
  | remove (env : GitEnv) (w : World) (identifier : String) :
      ClientStep w (RemoveRegistry env w identifier).1
  | sync (env : GitEnv) (w : World) (name : String) (now : GoTime) :
      ClientStep w (SyncRegistry env w name now).1

/-- Absence of a duplicate match characterised pointwise. -/
theorem findDup_none_iff (regs : List Registry) (url name : String) :
    findDup regs url name = none ↔ ∀ r ∈ regs, r.url ≠ url ∧ r.name ≠ name := by
  induction regs with
  | nil => simp [findDup]
  | cons r rest ih =>
    unfold findDup
    by_cases h1 : r.url == url
    · have h1e : r.url = url := by simpa using h1
      rw [if_pos h1]
      simp [h1e]
    · have h1e : r.url ≠ url := by simpa using h1
      rw [if_neg h1]
      by_cases h2 : r.name == name
      · have h2e : r.name = name := by simpa using h2
        rw [if_pos h2]
        simp [h2e]
      · have h2e : r.name ≠ name := by simpa using h2
        rw [if_neg h2]
        simp [ih, h1e, h2e]

/-- A duplicate match is one of the two already-exists errors. -/
theorem findDup_some_shape :
    ∀ (regs : List Registry) (url name : String) (e : RegErr),
      findDup regs url name = some e →
      e = .alreadyExists url ∨ e = .nameAlreadyExists name := by
  intro regs
  induction regs with
  | nil => intro url name e h; cases h
  | cons r rest ih =>
    intro url name e h
    unfold findDup at h
    by_cases h1 : r.url == url
    · rw [if_pos h1] at h
      exact Or.inl (Option.some.inj h).symm
    · rw [if_neg h1] at h
      by_cases h2 : r.name == name
      · rw [if_pos h2] at h
        exact Or.inr (Option.some.inj h).symm
      · rw [if_neg h2] at h
        exact ih url name e h

/-- AddRegistry preserves the state invariant. -/
theorem addRegistry_preserves_inv (env : GitEnv) (w : World) (url name : String) (now : GoTime)
    (h : StateInv w) : StateInv (AddRegistry env w url name now).1 := by
  obtain ⟨⟨hn, hu⟩, hdm⟩ := h
  unfold AddRegistry
  cases hdup : findDup w.mem url name with
  | some e => exact ⟨⟨hn, hu⟩, hdm⟩
  | none =>
    dsimp only
    cases hcl : (CloneRepository env w.cache url name).2.1 with
    | error ge => exact ⟨⟨hn, hu⟩, hdm⟩
    | ok u =>
      cases u
      cases hv : verifyLocalRegistry (CloneRepository env w.cache url name).1 name with
      | error ve => exact ⟨⟨hn, hu⟩, hdm⟩
      | ok u2 =>
        cases u2
        have hfresh := (findDup_none_iff w.mem url name).mp hdup
        refine ⟨⟨?_, ?_⟩, rfl⟩
        · rw [List.map_append]
          simp only [List.map_cons, List.map_nil]
          rw [List.nodup_append]
          refine ⟨hn, List.nodup_singleton _, ?_⟩
          intro x hx hx1
          obtain ⟨r, hr, hre⟩ := List.mem_map.mp hx
          rcases List.mem_singleton.mp hx1 with rfl
          exact (hfresh r hr).2 hre
        · rw [List.map_append]
          simp only [List.map_cons, List.map_nil]
          rw [List.nodup_append]
          refine ⟨hu, List.nodup_singleton _, ?_⟩
          intro x hx hx1
          obtain ⟨r, hr, hre⟩ := List.mem_map.mp hx
          rcases List.mem_singleton.mp hx1 with rfl
          exact (hfresh r hr).1 hre

/-- The removal search keeps a sublist of the registry list. -/
theorem removeRegistryAux_sublist (env : GitEnv) (cache : CacheState) :
    ∀ (regs : List Registry) (identifier : String) (out : List Registry × CacheState × List Ev),
      removeRegistryAux env cache regs identifier = some out → out.1.Sublist regs := by
  intro regs
  induction regs with
  | nil => intro identifier out h; cases h
  | cons r rest ih =>
    intro identifier out h
    unfold removeRegistryAux at h
    by_cases hm : (r.name == identifier || r.url == identifier)
    · rw [if_pos hm] at h
      obtain rfl := Option.some.inj h
      exact (List.Sublist.refl rest).cons r
    · rw [if_neg hm] at h
      cases hrec : removeRegistryAux env cache rest identifier with
      | none => rw [hrec] at h; cases h
      | some p =>
        rw [hrec] at h
        obtain rfl := Option.some.inj h
        exact (ih identifier p hrec).cons₂ r

/-- RemoveRegistry preserves the state invariant. -/
theorem removeRegistry_preserves_inv (env : GitEnv) (w : World) (identifier : String)
    (h : StateInv w) : StateInv (RemoveRegistry env w identifier).1 := by
  obtain ⟨⟨hn, hu⟩, hdm⟩ := h
  unfold RemoveRegistry
  cases haux : removeRegistryAux env w.cache w.mem identifier with
  | none => exact ⟨⟨hn, hu⟩, hdm⟩
  | some p =>
    have hs := removeRegistryAux_sublist env w.cache w.mem identifier p haux
    exact ⟨⟨hn.sublist (hs.map Registry.name), hu.sublist (hs.map Registry.url)⟩, rfl⟩

/-- Setting last_sync of the record found by name changes neither the name
column nor the url column. -/
theorem findRegistry_maps (name : String) (now : GoTime) :
    ∀ (regs : List Registry) (i : Nat) (reg : Registry),
      findRegistry regs name = some (i, reg) →
      (regs.set i { reg with lastSync := now }).map Registry.name = regs.map Registry.name ∧
      (regs.set i { reg with lastSync := now }).map Registry.url = regs.map Registry.url := by
  intro regs
  induction regs with
  | nil => intro i reg h; cases h
  | cons r rest ih =>
    intro i reg h
    unfold findRegistry at h
    by_cases hr : r.name == name
    · rw [if_pos hr] at h
      have hp := Option.some.inj h
      injection hp with hi hreg
      subst hi
      subst hreg
      exact ⟨rfl, rfl⟩
    · rw [if_neg hr] at h
      obtain ⟨⟨j, reg2⟩, hj, heq⟩ := Option.map_eq_some'.mp h
      injection heq with hi hreg
      subst hi
      subst hreg
      obtain ⟨hn2, hu2⟩ := ih j reg2 hj
      constructor
      · show Registry.name r :: _ = Registry.name r :: _
        rw [hn2]
      · show Registry.url r :: _ = Registry.url r :: _
        rw [hu2]

/-- The verify-and-persist tail preserves the state invariant when the
timestamp update leaves both key columns unchanged. -/
theorem syncVerifyStep_preserves_inv (w : World) (name : String) (now : GoTime)
    (i : Nat) (reg : Registry) (cache1 : CacheState) (evs : List Ev)
    (hfind : findRegistry w.mem name = some (i, reg))
    (h : StateInv w) : StateInv (syncVerifyStep w name now i reg cache1 evs).1 := by
  obtain ⟨⟨hn, hu⟩, hdm⟩ := h
  obtain ⟨hmn, hmu⟩ := findRegistry_maps name now w.mem i reg hfind
  unfold syncVerifyStep
  cases hv : verifyLocalRegistry cache1 name with
  | error ve => exact ⟨⟨hn, hu⟩, hdm⟩
  | ok u =>
    cases u
    refine ⟨⟨?_, ?_⟩, rfl⟩
    · rw [hmn]; exact hn
    · rw [hmu]; exact hu

/-- SyncRegistry preserves the state invariant. -/
theorem syncRegistry_preserves_inv (env : GitEnv) (w : World) (name : String) (now : GoTime)
    (h : StateInv w) : StateInv (SyncRegistry env w name now).1 := by
  have hinv := h
  obtain ⟨⟨hn, hu⟩, hdm⟩ := h
  unfold SyncRegistry
  cases hf : findRegistry w.mem name with
  | none => exact ⟨⟨hn, hu⟩, hdm⟩
  | some p =>
    obtain ⟨i, reg⟩ := p
    dsimp only
    by_cases hc : IsRepositoryCloned w.cache name
    · rw [if_pos hc]
      cases hr : (updateRepository env w.cache name).2.1 with
      | error ge => exact ⟨⟨hn, hu⟩, hdm⟩
      | ok u =>
        cases u
        exact syncVerifyStep_preserves_inv w name now i reg _ _ hf hinv
    · rw [if_neg hc]
      cases hr : (CloneRepository env w.cache reg.url name).2.1 with
      | error ge => exact ⟨⟨hn, hu⟩, hdm⟩
      | ok u =>
        cases u
        exact syncVerifyStep_preserves_inv w name now i reg _ _ hf hinv

/-- C7: every state reachable from a duplicate-free state through
AddRegistry, RemoveRegistry and SyncRegistry keeps the registry names and
urls pairwise distinct (in memory and on disk alike), and AddRegistry with
a url or name already present is rejected with an already-exists error
before any clone or other effect is attempted. -/
theorem registryList_uniqueness_invariant :
    (∀ w w2, StateInv w → ClientStep w w2 → StateInv w2) ∧
    (∀ w w2, StateInv w → Relation.ReflTransGen ClientStep w w2 → StateInv w2) ∧
    (∀ (env : GitEnv) (w : World) (url name : String) (now : GoTime),
      (∃ r ∈ w.mem, r.url = url ∨ r.name = name) →
      (AddRegistry env w url name now).1 = w ∧
      (AddRegistry env w url name now).2.2 = [] ∧
      ∃ e, (AddRegistry env w url name now).2.1 = .error e ∧
        (e = .alreadyExists url ∨ e = .nameAlreadyExists name)) := by
  have hstep : ∀ w w2, StateInv w → ClientStep w w2 → StateInv w2 := by
    intro w w2 hw hs
    cases hs with
    | add env w url name now => exact addRegistry_preserves_inv env w url name now hw
    | remove env w identifier => exact removeRegistry_preserves_inv env w identifier hw
    | sync env w name now => exact syncRegistry_preserves_inv env w name now hw
  refine ⟨hstep, ?_, ?_⟩
  · intro w w2 hw hr
    induction hr with
    | refl => exact hw
    | tail hsteps hlast ih => exact hstep _ _ ih hlast
  · intro env w url name now hdup
    cases hfd : findDup w.mem url name with
    | none =>
      exfalso
      obtain ⟨r, hr, hor⟩ := hdup
      obtain ⟨hu2, hn2⟩ := (findDup_none_iff w.mem url name).mp hfd r hr
      cases hor with
      | inl hh => exact hu2 hh
      | inr hh => exact hn2 hh
    | some e =>
      have hshape := findDup_some_shape w.mem url name e hfd
      refine ⟨?_, ?_, e, ?_, hshape⟩ <;> simp only [AddRegistry, hfd]

/-- Witness for C7: the invariant survives the empty run, and a duplicate
url is rejected with the already-exists error without any effect. -/
theorem registryList_uniqueness_invariant_witness :
    StateInv oneRegWorld ∧
    (AddRegistry envNoIndex oneRegWorld "https://example.com/u/r" "fresh-name" 9).1 = oneRegWorld ∧
    (AddRegistry envNoIndex oneRegWorld "https://example.com/u/r" "fresh-name" 9).2.2 = [] ∧
    (AddRegistry envNoIndex oneRegWorld "https://example.com/u/r" "fresh-name" 9).2.1 =
      .error (.alreadyExists "https://example.com/u/r") := by
  have hinv : StateInv oneRegWorld := ⟨⟨by decide, by decide⟩, rfl⟩
  have hinv2 := registryList_uniqueness_invariant.2.1 oneRegWorld oneRegWorld hinv .refl
  obtain ⟨h1, h2, e, h3, hshape⟩ := registryList_uniqueness_invariant.2.2 envNoIndex oneRegWorld
    "https://example.com/u/r" "fresh-name" 9
    ⟨{ url := "https://example.com/u/r", name := "reg1", description := "",
       addedAt := 1, lastSync := 1 }, by simp [oneRegWorld], Or.inl rfl⟩
  exact ⟨hinv2, h1, h2, rfl⟩

end Shellify
